import Mathlib

/-!
Verification of the dir2prompt file-selection and content-rendering pipeline
(src/main.rs). Strings are embedded as lists of characters, file-system paths
as lists of path components (each component a character list). Machine
byte values are embedded as natural numbers.
-/

namespace D2P

/-- A Rust string, embedded as its character list. -/
abbrev Str : Type := List Char

/-- Build a `Str` from a Lean string literal. -/
def str (x : String) : Str := x.data

/-- The apostrophe character (used in error messages built by the code). -/
def sq : Char := Char.ofNat 39

/-- A file-system path, embedded as its list of normal components. -/
abbrev FsPath : Type := List Str

/-! ## Glob patterns

The glob language consumed by the override builder. The pattern compiler
and matcher live in the external `ignore` crate, not in src/main.rs.

Modelled from the spec: each pattern string is interpreted as a
recursive-match glob rooted at the root (spec 4.1); a pattern containing a
slash is anchored at the root, a pattern without a slash matches a basename
at any depth, `**` matches any number of path components (zero or more
in this model), `*` and `?` match within a single component, and a
character class `[...]` (with optional leading `!` negation) must be
closed; an unclosed class is the malformed-pattern case (spec 4.1 error
handling). Character ranges inside classes are not modelled. -/

/-- One token of a single-component glob segment. -/
inductive Tok where
  | lit (c : Char)
  | star
  | qmark
  | cls (neg : Bool) (chars : List Char)
  deriving DecidableEq, Repr

/-- One component of a compiled glob pattern: either a `**` component
matching any number of path components, or a single-component segment. -/
inductive PatComp where
  | deep
  | seg (toks : List Tok)
  deriving DecidableEq, Repr

/-- A compiled glob pattern. -/
abbrev GlobPat : Type := List PatComp

/-- Build a class token from the accumulated class characters (held in
reverse order by the tokenizer): a leading `!` negates the class. -/
def mkClsTok (csRev : List Char) : Tok :=
  let body := csRev.reverse
  if body.head? = some '!' then Tok.cls true body.tail else Tok.cls false body

/-- The state of the segment tokenizer: the tokens so far (in reverse)
and, when inside an open character class, its accumulated characters
(in reverse). -/
structure SegParseState where
  toks : List Tok
  openCls : Option (List Char)
  deriving DecidableEq, Repr

/-- One step of the segment tokenizer. -/
def segStep (st : SegParseState) (c : Char) : SegParseState :=
  match st.openCls with
  | some cs =>
    if c = ']' then { toks := mkClsTok cs :: st.toks, openCls := Option.none }
    else { st with openCls := some (c :: cs) }
  | Option.none =>
    if c = '*' then { st with toks := Tok.star :: st.toks }
    else if c = '?' then { st with toks := Tok.qmark :: st.toks }
    else if c = '[' then { st with openCls := some [] }
    else { st with toks := Tok.lit c :: st.toks }

/-- Parse one glob segment (the text between slashes) into tokens; a
character class left open at the end of the segment is the
malformed-pattern case. -/
def parseSeg (l : Str) : Except Str (List Tok) :=
  let st := l.foldl segStep { toks := [], openCls := Option.none }
  match st.openCls with
  | some _ => Except.error (str "unclosed character class")
  | Option.none => Except.ok st.toks.reverse

/-- Parse one pattern component: a literal `**` becomes a deep component. -/
def parseComp (s2 : Str) : Except Str PatComp :=
  if s2 = str "**" then Except.ok PatComp.deep
  else (parseSeg s2).map PatComp.seg

/-- Parse a whole glob pattern into components. -/
def parseGlob (p : Str) : Except Str GlobPat :=
  if p.contains '/' then (p.splitOn '/').mapM parseComp
  else ((parseSeg p).map (fun ts => [PatComp.deep, PatComp.seg ts]))

/-- Whether one non-star token accepts one character. -/
def tokMatch1 : Tok → Char → Bool
  | Tok.lit c2, c => c2 = c
  | Tok.qmark, _ => true
  | Tok.star, _ => true
  | Tok.cls neg body, c => if neg then !(body.contains c) else body.contains c

/-- Cumulative or over a Boolean list: position j of the result is the or
of positions 0 to j of the input. -/
def orScan : List Bool → Bool → List Bool
  | [], _ => []
  | b :: bs, accb => (accb || b) :: orScan bs (accb || b)

/-- One token step of the glob matcher, in dynamic-programming form over
text positions: a star reaches every position at or after one already
reached; any other token advances each reached position over one accepted
character. -/
def stepTok (cs : Str) (prev : List Bool) : Tok → List Bool
  | Tok.star => orScan prev false
  | t => false :: List.zipWith (fun p c => p && tokMatch1 t c) prev cs

/-- Match a token list against the characters of one path component (the
whole component must be consumed). -/
def segMatch (ts : List Tok) (cs : Str) : Bool :=
  ((ts.foldl (fun prev t => stepTok cs prev t) (true :: cs.map (fun _ => false))).getLastD false)

/-- Whether one non-deep pattern component accepts one path component. -/
def compMatch1 : PatComp → Str → Bool
  | PatComp.deep, _ => true
  | PatComp.seg ts, x => segMatch ts x

/-- One component step of the path matcher: a deep component reaches
every position at or after one already reached (it spans any number of
path components); a segment advances over one accepted component. -/
def stepComp (path : FsPath) (prev : List Bool) : PatComp → List Bool
  | PatComp.deep => orScan prev false
  | pc => false :: List.zipWith (fun p x => p && compMatch1 pc x) prev path

/-- Match a compiled pattern against a path given as components (the
whole path must be consumed). -/
def compsMatch (pcs : GlobPat) (path : FsPath) : Bool :=
  ((pcs.foldl (fun prev pc => stepComp path prev pc)
      (true :: path.map (fun _ => false))).getLastD false)

/-! ## Override rules (the compiled policy) -/

/-- One compiled override rule: `ignores` records whether the added line
began with `!` (an exclude in override syntax), together with its glob. -/
structure Rule where
  ignores : Bool
  pat : GlobPat
  deriving DecidableEq, Repr

/-- Modelled from the spec: the override builder is an external collaborator
(the override mechanism of the directory enumerator, spec 4.1 and 2),
consumed at its interface. Each added line has gitignore glob syntax with
the meaning of a leading `!` inverted: a line starting with `!` makes
matching paths ignored (excluded), and a line without `!` whitelists them
(force-include). This polarity is forced by src/main.rs itself: the
builtin exclude lines are all added through the same `!`-prefixing
normalizer `add_exclude`. -/
def oAdd (line : Str) : Except Str Rule :=
  match line with
  | '!' :: rest => (parseGlob rest).map (fun g => { ignores := true, pat := g })
  | _ => (parseGlob line).map (fun g => { ignores := false, pat := g })

/-- The decision of the override matcher for one path. -/
inductive OvMatch where
  | noRule
  | ignored
  | whitelisted
  deriving DecidableEq, Repr

/-- The last rule in the list that matches the path (later rules take
precedence over earlier ones). -/
def lastMatch (rules : List Rule) (path : FsPath) : Option Rule :=
  match rules with
  | [] => Option.none
  | r :: rest =>
    match lastMatch rest path with
    | some r2 => some r2
    | Option.none => if compsMatch r.pat path then some r else Option.none

/-- Modelled from the spec: the override matching decision for a file path
(spec 4.1): the polarity of the last matching rule decides; when no rule
matches, a file is ignored when at least one whitelist rule is present,
otherwise no decision is made and the file is kept. -/
def matched (rules : List Rule) (path : FsPath) : OvMatch :=
  if rules.isEmpty then OvMatch.noRule
  else
    match lastMatch rules path with
    | some r => if r.ignores then OvMatch.ignored else OvMatch.whitelisted
    | Option.none =>
      if rules.any (fun r => !r.ignores) then OvMatch.ignored else OvMatch.noRule

/-- Whether the compiled policy keeps a file path. -/
def is_included (rules : List Rule) (path : FsPath) : Bool :=
  !(matched rules path = OvMatch.ignored)

/-! ## Building the override list (build_overrides, add_exclude) -/

/-- Rust str trim, embedded on character lists. -/
def trim (p : Str) : Str :=
  ((p.dropWhile Char.isWhitespace).reverse.dropWhile Char.isWhitespace).reverse

/-- add_exclude from src/main.rs: trim, prefix `!` unless already present,
then hand the line to the override builder; a builder error is wrapped in
a message naming the line and the underlying complaint. -/
def add_exclude (pattern : Str) : Except Str Rule :=
  let p := trim pattern
  let line := if p.head? = some '!' then p else '!' :: p
  match oAdd line with
  | Except.ok r => Except.ok r
  | Except.error e =>
    Except.error (str "bad override " ++ [sq] ++ line ++ [sq] ++ str ": " ++ e)

/-- The fixed builtin exclude patterns of build_overrides. -/
def builtinExcludes : List Str :=
  [str "**/.git/**", str "**/.hg/**", str "**/.svn/**",
   str "**/.venv/**", str "**/venv/**", str "**/__pycache__/**",
   str "**/.mypy_cache/**", str "**/.pytest_cache/**", str "**/.ruff_cache/**",
   str "**/.tox/**",
   str "**/node_modules/**", str "**/target/**", str "**/dist/**",
   str "**/build/**", str "**/.next/**", str "**/.nuxt/**",
   str "**/.svelte-kit/**",
   str "**/.DS_Store", str "**/Thumbs.db"]

/-- The lockfile exclude patterns added when lockfiles are not included. -/
def lockfileExcludes : List Str :=
  [str "**/Cargo.lock", str "**/package-lock.json", str "**/yarn.lock",
   str "**/pnpm-lock.yaml", str "**/composer.lock", str "**/Gemfile.lock",
   str "**/poetry.lock", str "**/Pipfile.lock"]

/-- Add a list of patterns through add_exclude, in order, accumulating the
compiled rules and stopping at the first error. -/
def addAllExcludes (pats : List Str) (acc : List Rule) : Except Str (List Rule) :=
  match pats with
  | [] => Except.ok acc
  | p :: rest =>
    match add_exclude p with
    | Except.ok r => addAllExcludes rest (acc ++ [r])
    | Except.error e => Except.error e

/-- The line build_overrides builds for one user include pattern before
handing it to add_exclude: the pattern is prefixed with `!` unless it
already starts with one. -/
def includeLine (inc : Str) : Str :=
  if inc.head? = some '!' then inc else '!' :: inc

/-- build_overrides from src/main.rs: builtin excludes, then lockfile
excludes unless lockfiles are included, then user excludes, then user
includes, each include first turned into a `!` line and then passed through
add_exclude; the first failure aborts compilation (the ? chain in Rust).
The root argument of the Rust builder only anchors patterns; matching here
is on root-relative component lists, so it is omitted. -/
def build_overrides (include_lockfiles : Bool) (excludes includes : List Str) :
    Except Str (List Rule) :=
  match addAllExcludes builtinExcludes [] with
  | Except.error e => Except.error e
  | Except.ok acc1 =>
    match (if include_lockfiles then Except.ok acc1
           else addAllExcludes lockfileExcludes acc1) with
    | Except.error e => Except.error e
    | Except.ok acc2 =>
      match addAllExcludes excludes acc2 with
      | Except.error e => Except.error e
      | Except.ok acc3 =>
        match addAllExcludes (includes.map includeLine) acc3 with
        | Except.error e => Except.error e
        | Except.ok acc4 => Except.ok acc4

/-! ## Content loader (read_file_limited) -/

/-- The result of reading one file with a byte cap. -/
structure ReadResult where
  bytes : List Nat
  truncated : Bool
  deriving DecidableEq, Repr

/-- read_file_limited from src/main.rs: read at most (max_bytes as u64) + 1
bytes from the available data (the take on the reader). The cap is
computed in u64 arithmetic, so it wraps modulo 2 ^ 64 (release behavior):
at max_bytes = 2 ^ 64 - 1 the cap is zero and nothing is read. Truncation
then keeps exactly max_bytes bytes when more arrived. -/
def read_file_limited (data : List Nat) (max_bytes : Nat) : ReadResult :=
  let buf := data.take ((max_bytes + 1) % 2 ^ 64)
  let truncated : Bool := decide (buf.length > max_bytes)
  { bytes := if truncated then buf.take max_bytes else buf, truncated := truncated }

/-! ## Content classifier (looks_binary, bytes_to_text) -/

/-- looks_binary from src/main.rs: a NUL byte within the first 8 KiB of
the byte sequence. The take bounds the inspected window at
min (length, 8 KiB), as the Rust slice does. -/
def looks_binary (bytes : List Nat) : Bool :=
  (bytes.take (8 * 1024)).any (fun b => b == 0)

/-- Whether a byte is a UTF-8 continuation byte. -/
def isCont (b : Nat) : Bool := 128 ≤ b && b ≤ 191

/-- Modelled from the spec: strict UTF-8 validation and decoding of the
full byte sequence (spec 4.3), as performed by the standard library
from_utf8 used in src/main.rs. Returns the decoded characters, or nothing
when the sequence is not valid UTF-8 (overlong forms, surrogates and
out-of-range values are invalid, per the UTF-8 definition). -/
def utf8Chars : List Nat → Option (List Char)
  | [] => some []
  | b :: rest =>
    if b < 128 then (utf8Chars rest).map (fun cs => Char.ofNat b :: cs)
    else if 194 ≤ b && b ≤ 223 then
      match rest with
      | c :: r =>
        if isCont c then
          (utf8Chars r).map (fun cs => Char.ofNat ((b - 192) * 64 + (c - 128)) :: cs)
        else Option.none
      | [] => Option.none
    else if b = 224 then
      match rest with
      | c :: d :: r =>
        if (160 ≤ c && c ≤ 191) && isCont d then
          (utf8Chars r).map (fun cs =>
            Char.ofNat (((b - 224) * 64 + (c - 128)) * 64 + (d - 128)) :: cs)
        else Option.none
      | _ => Option.none
    else if (225 ≤ b && b ≤ 236) || (238 ≤ b && b ≤ 239) then
      match rest with
      | c :: d :: r =>
        if isCont c && isCont d then
          (utf8Chars r).map (fun cs =>
            Char.ofNat (((b - 224) * 64 + (c - 128)) * 64 + (d - 128)) :: cs)
        else Option.none
      | _ => Option.none
    else if b = 237 then
      match rest with
      | c :: d :: r =>
        if (128 ≤ c && c ≤ 159) && isCont d then
          (utf8Chars r).map (fun cs =>
            Char.ofNat (((b - 224) * 64 + (c - 128)) * 64 + (d - 128)) :: cs)
        else Option.none
      | _ => Option.none
    else if b = 240 then
      match rest with
      | c :: d :: e :: r =>
        if (144 ≤ c && c ≤ 191) && (isCont d && isCont e) then
          (utf8Chars r).map (fun cs =>
            Char.ofNat ((((b - 240) * 64 + (c - 128)) * 64 + (d - 128)) * 64 + (e - 128)) :: cs)
        else Option.none
      | _ => Option.none
    else if 241 ≤ b && b ≤ 243 then
      match rest with
      | c :: d :: e :: r =>
        if isCont c && (isCont d && isCont e) then
          (utf8Chars r).map (fun cs =>
            Char.ofNat ((((b - 240) * 64 + (c - 128)) * 64 + (d - 128)) * 64 + (e - 128)) :: cs)
        else Option.none
      | _ => Option.none
    else if b = 244 then
      match rest with
      | c :: d :: e :: r =>
        if (128 ≤ c && c ≤ 143) && (isCont d && isCont e) then
          (utf8Chars r).map (fun cs =>
            Char.ofNat ((((b - 240) * 64 + (c - 128)) * 64 + (d - 128)) * 64 + (e - 128)) :: cs)
        else Option.none
      | _ => Option.none
    else Option.none

/-- Whether a byte sequence is valid UTF-8. -/
def validUtf8 (bytes : List Nat) : Bool := (utf8Chars bytes).isSome

/-- The replacement character. -/
def repChar : Char := Char.ofNat 0xFFFD

/-- Modelled from the spec: lossy replacement decoding (spec 4.3 and the
glossary), as performed by from_utf8_lossy in src/main.rs: well-formed
sequences decode normally and each invalid byte run is replaced with the
replacement character (this model resynchronizes one byte at a time). -/
def utf8Lossy : List Nat → List Char
  | [] => []
  | b :: rest =>
    if b < 128 then Char.ofNat b :: utf8Lossy rest
    else if 194 ≤ b && b ≤ 223 then
      match rest with
      | c :: r =>
        if isCont c then Char.ofNat ((b - 192) * 64 + (c - 128)) :: utf8Lossy r
        else repChar :: utf8Lossy (c :: r)
      | [] => [repChar]
    else if b = 224 then
      match rest with
      | c :: d :: r =>
        if (160 ≤ c && c ≤ 191) && isCont d then
          Char.ofNat (((b - 224) * 64 + (c - 128)) * 64 + (d - 128)) :: utf8Lossy r
        else repChar :: utf8Lossy (c :: d :: r)
      | [c] => repChar :: utf8Lossy [c]
      | [] => [repChar]
    else if (225 ≤ b && b ≤ 236) || (238 ≤ b && b ≤ 239) then
      match rest with
      | c :: d :: r =>
        if isCont c && isCont d then
          Char.ofNat (((b - 224) * 64 + (c - 128)) * 64 + (d - 128)) :: utf8Lossy r
        else repChar :: utf8Lossy (c :: d :: r)
      | [c] => repChar :: utf8Lossy [c]
      | [] => [repChar]
    else if b = 237 then
      match rest with
      | c :: d :: r =>
        if (128 ≤ c && c ≤ 159) && isCont d then
          Char.ofNat (((b - 224) * 64 + (c - 128)) * 64 + (d - 128)) :: utf8Lossy r
        else repChar :: utf8Lossy (c :: d :: r)
      | [c] => repChar :: utf8Lossy [c]
      | [] => [repChar]
    else if b = 240 then
      match rest with
      | c :: d :: e :: r =>
        if (144 ≤ c && c ≤ 191) && (isCont d && isCont e) then
          Char.ofNat ((((b - 240) * 64 + (c - 128)) * 64 + (d - 128)) * 64 + (e - 128)) :: utf8Lossy r
        else repChar :: utf8Lossy (c :: d :: e :: r)
      | [c, d] => repChar :: utf8Lossy [c, d]
      | [c] => repChar :: utf8Lossy [c]
      | [] => [repChar]
    else if 241 ≤ b && b ≤ 243 then
      match rest with
      | c :: d :: e :: r =>
        if isCont c && (isCont d && isCont e) then
          Char.ofNat ((((b - 240) * 64 + (c - 128)) * 64 + (d - 128)) * 64 + (e - 128)) :: utf8Lossy r
        else repChar :: utf8Lossy (c :: d :: e :: r)
      | [c, d] => repChar :: utf8Lossy [c, d]
      | [c] => repChar :: utf8Lossy [c]
      | [] => [repChar]
    else if b = 244 then
      match rest with
      | c :: d :: e :: r =>
        if (128 ≤ c && c ≤ 143) && (isCont d && isCont e) then
          Char.ofNat ((((b - 240) * 64 + (c - 128)) * 64 + (d - 128)) * 64 + (e - 128)) :: utf8Lossy r
        else repChar :: utf8Lossy (c :: d :: e :: r)
      | [c, d] => repChar :: utf8Lossy [c, d]
      | [c] => repChar :: utf8Lossy [c]
      | [] => [repChar]
    else repChar :: utf8Lossy rest
termination_by l => l.length
decreasing_by all_goals (simp_wf; try omega)

/-- The note attached by bytes_to_text when lossy decoding occurred. -/
def lossyNote : Str := str "note: contained invalid UTF-8; printed with lossless replacement"

/-- bytes_to_text from src/main.rs: strict UTF-8 decode; on failure, skip
when strict_utf8 is set, otherwise lossy-decode with a note. -/
def bytes_to_text (bytes : List Nat) (strict_utf8 : Bool) : Option Str × Option Str :=
  match utf8Chars bytes with
  | some s2 => (some s2, Option.none)
  | Option.none =>
    if strict_utf8 then (Option.none, Option.none)
    else (some (utf8Lossy bytes), some lossyNote)

/-- The classification of one loaded byte sequence, mirroring the decision
sequence of the per-file loop in main (src/main.rs lines 136 to 167):
binary check first, then UTF-8 handling. -/
inductive Classification where
  | binary
  | unreadable
  | text (content : Str) (note : Option Str)
  deriving DecidableEq, Repr

/-- The classifier: looks_binary first; only when that fails is
bytes_to_text consulted, exactly as in the main loop. -/
def classify (bytes : List Nat) (strict_utf8 : Bool) : Classification :=
  if looks_binary bytes then Classification.binary
  else
    match bytes_to_text bytes strict_utf8 with
    | (Option.none, _) => Classification.unreadable
    | (some t, note) => Classification.text t note

/-! ## Paths: relative paths, ordering, sorting -/

/-- Rust strip_prefix on component lists: the remainder of the path after
the root components, or nothing when the root is not a leading part. -/
def stripRoot : FsPath → FsPath → Option FsPath
  | [], p => some p
  | _ :: _, [] => Option.none
  | r :: rs, x :: xs => if r = x then stripRoot rs xs else Option.none

/-- rel_path from src/main.rs: strip_prefix root, falling back to the
path itself. -/
def rel_path (root p : FsPath) : FsPath := (stripRoot root p).getD p

/-- Render a path for display: components joined by slashes, as the Rust
display of a relative path does. -/
def renderPath (p : FsPath) : Str := (p.intersperse (str "/")).flatten

/-- Byte-wise comparison of two strings (Rust str ordering; for the
embedded character lists this is lexicographic by scalar value, which
agrees with UTF-8 byte order). -/
def strCmp : Str → Str → Ordering
  | [], [] => Ordering.eq
  | [], _ :: _ => Ordering.lt
  | _ :: _, [] => Ordering.gt
  | a :: as2, b :: bs =>
    if a < b then Ordering.lt
    else if b < a then Ordering.gt
    else strCmp as2 bs

/-- Rust Path ordering: lexicographic over the component sequences,
comparing individual components byte-wise. This is the order used by the
sort of the collected file list in main. -/
def pathCmp : FsPath → FsPath → Ordering
  | [], [] => Ordering.eq
  | [], _ :: _ => Ordering.lt
  | _ :: _, [] => Ordering.gt
  | a :: as2, b :: bs =>
    match strCmp a b with
    | Ordering.lt => Ordering.lt
    | Ordering.gt => Ordering.gt
    | Ordering.eq => pathCmp as2 bs

/-- Non-strict path comparison as a Boolean. -/
def pathLe (a b : FsPath) : Bool := !(pathCmp a b = Ordering.gt)

/-- Insert a path into a sorted list, before the first element it is not
greater than (stable: an element inserted from the left of equals stays
left). -/
def insertPath (x : FsPath) : List FsPath → List FsPath
  | [] => [x]
  | y :: ys => if pathLe x y then x :: y :: ys else y :: insertPath x ys

/-- The sort applied to the collected file list (files.sort() in main):
a stable sort by the Rust Path ordering, embedded as insertion sort. -/
def sortPaths : List FsPath → List FsPath
  | [] => []
  | x :: xs => insertPath x (sortPaths xs)

/-- Non-strict string comparison as a Boolean. -/
def strLe (a b : Str) : Bool := !(strCmp a b = Ordering.gt)

/-- Insert a string into a sorted list of strings. -/
def insertStr (x : Str) : List Str → List Str
  | [] => [x]
  | y :: ys => if strLe x y then x :: y :: ys else y :: insertStr x ys

/-- Stable insertion sort of strings by byte-wise order. -/
def sortStrs : List Str → List Str
  | [] => []
  | x :: xs => insertStr x (sortStrs xs)

/-- normalize_root from src/main.rs, with the canonicalization primitive
of the standard library passed in as an oracle: an empty root becomes the
current directory, then canonicalize when possible, falling back to the
given path when canonicalization fails. -/
def normalize_root (canon : FsPath → Except Str FsPath) (root : FsPath) :
    Except Str FsPath :=
  match canon (if root = [] then [str "."] else root) with
  | Except.ok p => Except.ok p
  | Except.error _ => Except.ok (if root = [] then [str "."] else root)

/-! ## Renderer (the per-file segments of main) -/

/-- Render a natural number in decimal. -/
def natStr (n : Nat) : Str := (Nat.repr n).data

/-- What the external file reader produced for one path: the bytes that
were available together with the truncation flag computed by
read_file_limited, or an I/O error message. -/
inductive ReadOutcome where
  | ok (bytes : List Nat) (truncated : Bool)
  | err (msg : Str)
  deriving DecidableEq, Repr

/-- Which summary counter a segment feeds. -/
inductive SegKind where
  | printedK
  | binaryK
  | utf8K
  | errK
  deriving DecidableEq, Repr

/-- The run summary counters of main. -/
structure Counters where
  printed : Nat
  skipped_binary : Nat
  skipped_utf8 : Nat
  deriving DecidableEq, Repr

/-- The counter update performed in the branch that emitted a segment of
the given kind (a read error updates no counter). -/
def bumpCounter (c : Counters) : SegKind → Counters
  | SegKind.printedK => { c with printed := c.printed + 1 }
  | SegKind.binaryK => { c with skipped_binary := c.skipped_binary + 1 }
  | SegKind.utf8K => { c with skipped_utf8 := c.skipped_utf8 + 1 }
  | SegKind.errK => c

/-- The header printed for every segment: the relative path in backticks. -/
def segHeader (rel : FsPath) : Str :=
  str "## `" ++ renderPath rel ++ str "`\n\n"

/-- Whether a text ends in a newline (text.ends_with in main). -/
def endsNewline (t : Str) : Bool := t.getLast? == some '\n'

/-- The fenced code block of a text segment (src/main.rs lines 169 to
175): opening fence with language tag, the content, a newline appended
when the content does not end in one, then the closing fence and the
blank line after the block. -/
def fencedBlock (lang text : Str) : Str :=
  str "```" ++ lang ++ str "\n" ++ text ++
    (if endsNewline text then [] else str "\n") ++ str "```\n\n"

/-- A binary-skip segment. -/
def segBinary (rel : FsPath) : Str :=
  segHeader rel ++ str "(skipped: looks like a binary file)\n\n"

/-- A decode-skip segment. -/
def segUtf8 (rel : FsPath) : Str :=
  segHeader rel ++ str "(skipped: not valid UTF-8)\n\n"

/-- A read-error segment. -/
def segErr (rel : FsPath) (msg : Str) : Str :=
  segHeader rel ++ str "(skipped: failed to read file: " ++ msg ++ str ")\n\n"

/-- A text segment: header, optional truncation line, optional lossy
note, then the fenced content. -/
def segText (max_bytes : Nat) (rel : FsPath) (lang : Str) (truncated : Bool)
    (note : Option Str) (text : Str) : Str :=
  segHeader rel ++
    (if truncated then str "(truncated to " ++ natStr max_bytes ++ str " bytes)\n\n" else []) ++
    (match note with
     | some n => str "(" ++ n ++ str ")\n\n"
     | Option.none => []) ++
    fencedBlock lang text

/-- The per-file body of the main loop (src/main.rs lines 136 to 185):
one segment and one counter update per path, for every read outcome. -/
def renderSegment (max_bytes : Nat) (strict_utf8 : Bool) (rel : FsPath) (lang : Str)
    (o : ReadOutcome) : Str × SegKind :=
  match o with
  | ReadOutcome.err msg => (segErr rel msg, SegKind.errK)
  | ReadOutcome.ok bytes truncated =>
    match classify bytes strict_utf8 with
    | Classification.binary => (segBinary rel, SegKind.binaryK)
    | Classification.unreadable => (segUtf8 rel, SegKind.utf8K)
    | Classification.text t note =>
      (segText max_bytes rel lang truncated note t, SegKind.printedK)

/-! ## Extension table (language_tag) -/

/-- Rust Path extension on a file name: the part after the last dot,
except that a name with no dot, or whose only dot is its first character,
has no extension. -/
def extOfName (name : Str) : Option Str :=
  let tail := ((name.reverse.takeWhile (fun c => c != '.')).reverse : Str)
  if tail.length = name.length then Option.none
  else if tail.length + 1 = name.length then Option.none
  else some tail

/-- The extension of a path: the extension of its last component. -/
def extOf (p : FsPath) : Option Str :=
  match p.getLast? with
  | some name => extOfName name
  | Option.none => Option.none

/-- language_tag from src/main.rs: the fixed extension-to-tag table over
the lowercased extension; unknown extensions map to the plain-text tag. -/
def language_tag (p : FsPath) : Str :=
  let e := ((extOf p).getD []).map Char.toLower
  if e = str "rs" then str "rust"
  else if e = str "toml" then str "toml"
  else if e = str "md" then str "markdown"
  else if e = str "txt" then str "text"
  else if e = str "json" then str "json"
  else if e = str "yml" ∨ e = str "yaml" then str "yaml"
  else if e = str "js" then str "javascript"
  else if e = str "ts" then str "ts"
  else if e = str "jsx" then str "jsx"
  else if e = str "tsx" then str "tsx"
  else if e = str "py" then str "python"
  else if e = str "sh" then str "bash"
  else if e = str "zsh" then str "zsh"
  else if e = str "fish" then str "fish"
  else if e = str "go" then str "go"
  else if e = str "java" then str "java"
  else if e = str "kt" ∨ e = str "kts" then str "kotlin"
  else if e = str "c" then str "c"
  else if e = str "h" then str "c"
  else if e = str "cpp" ∨ e = str "cc" ∨ e = str "cxx" then str "cpp"
  else if e = str "hpp" ∨ e = str "hh" ∨ e = str "hxx" then str "cpp"
  else if e = str "cs" then str "csharp"
  else if e = str "swift" then str "swift"
  else if e = str "rb" then str "ruby"
  else if e = str "php" then str "php"
  else if e = str "sql" then str "sql"
  else if e = str "html" then str "html"
  else if e = str "css" then str "css"
  else if e = str "scss" then str "scss"
  else if e = str "proto" then str "proto"
  else if e = str "ini" then str "ini"
  else if e = str "env" then str "bash"
  else str "text"

/-! ## The whole run (main) -/

/-- The command-line arguments consumed by main. -/
structure Args where
  root : FsPath
  max_bytes : Nat
  no_gitignore : Bool
  no_hidden : Bool
  include_lockfiles : Bool
  excludes : List Str
  includes : List Str
  strict_utf8 : Bool

/-- The title and metadata block plus the listing header printed before
the per-file bullets. -/
def docHead (root : FsPath) (respect_gitignore no_hidden : Bool) (max_bytes : Nat) : Str :=
  str "# dir2prompt dump\n\n- Root: `" ++ renderPath root ++
    str "`\n- Respect .gitignore: `" ++ (if respect_gitignore then str "yes" else str "no") ++
    str "`\n- Hidden files included: `" ++ (if no_hidden then str "no" else str "yes") ++
    str "`\n- Per-file max bytes: `" ++ natStr max_bytes ++
    str "`\n\n## Included files\n"

/-- The bullet line of the listing for one file. -/
def listingLine (rel : FsPath) : Str :=
  str "- `" ++ renderPath rel ++ str "`\n"

/-- The relative paths in listing order: the sorted file list, each made
relative to the root, exactly as the listing loop of main renders them. -/
def listingPaths (root : FsPath) (files : List FsPath) : List FsPath :=
  (sortPaths files).map (fun p => rel_path root p)

/-- The segments in emission order: one per sorted file, as produced by
the per-file loop of main; each segment is keyed by the relative path
printed in its header. -/
def segmentsOf (root : FsPath) (files : List FsPath) (readF : FsPath → ReadOutcome)
    (max_bytes : Nat) (strict_utf8 : Bool) : List (FsPath × Str × SegKind) :=
  (sortPaths files).map (fun p =>
    (rel_path root p,
     renderSegment max_bytes strict_utf8 (rel_path root p) (language_tag p) (readF p)))

/-- The paths whose segments are emitted, in order. -/
def segmentPaths (root : FsPath) (files : List FsPath) (readF : FsPath → ReadOutcome)
    (max_bytes : Nat) (strict_utf8 : Bool) : List FsPath :=
  (segmentsOf root files readF max_bytes strict_utf8).map (fun t => t.1)

/-- The final counters after the per-file loop. -/
def runCounters (root : FsPath) (files : List FsPath) (readF : FsPath → ReadOutcome)
    (max_bytes : Nat) (strict_utf8 : Bool) : Counters :=
  (segmentsOf root files readF max_bytes strict_utf8).foldl
    (fun c t => bumpCounter c t.2.2) ⟨0, 0, 0⟩

/-- main from src/main.rs, with the external collaborators passed in as
oracles: the canonicalization primitive, the directory enumerator (which
receives the compiled overrides and yields the regular files that
survived them and the ignore conventions), and the bounded file reader.
Returns the full document written to standard output, or the fatal
startup error, in which case nothing was written. -/
def run (canon : FsPath → Except Str FsPath) (walk : List Rule → List FsPath)
    (readF : FsPath → ReadOutcome) (args : Args) : Except Str Str := do
  let root ← normalize_root canon args.root
  let rules ← build_overrides args.include_lockfiles args.excludes args.includes
  let files := walk rules
  Except.ok
    (docHead root (!args.no_gitignore) args.no_hidden args.max_bytes ++
     ((listingPaths root files).map listingLine).flatten ++
     str "\n---\n\n" ++
     ((segmentsOf root files readF args.max_bytes args.strict_utf8).map
        (fun t => t.2.1)).flatten)

/-! ## Definitions written from the words of the spec (for comparison)

These are not translations of src/main.rs; they state what the spec
asserts, to be compared with the definitions above. -/

/-- From the spec (section 3, ordering invariant): the root-relative path
strings of the files, sorted lexicographically as strings. -/
def specStringSortedRelPaths (root : FsPath) (files : List FsPath) : List Str :=
  sortStrs (files.map (fun p => renderPath (rel_path root p)))

/-- Whether an Except value is a success. -/
def exIsOk {α : Type} : Except Str α → Bool
  | Except.ok _ => true
  | Except.error _ => false

/-! ## Helper lemmas -/

theorem validUtf8_false_iff (bytes : List Nat) :
    validUtf8 bytes = false ↔ utf8Chars bytes = Option.none := by
  unfold validUtf8
  cases utf8Chars bytes <;> simp

theorem bytes_to_text_invalid_strict (bytes : List Nat)
    (h : utf8Chars bytes = Option.none) :
    bytes_to_text bytes true = (Option.none, Option.none) := by
  unfold bytes_to_text
  rw [h]
  rfl

theorem bytes_to_text_invalid_lossy (bytes : List Nat)
    (h : utf8Chars bytes = Option.none) :
    bytes_to_text bytes false = (some (utf8Lossy bytes), some lossyNote) := by
  unfold bytes_to_text
  rw [h]
  rfl

theorem classify_unreadable (bytes : List Nat)
    (hb : looks_binary bytes = false) (h : utf8Chars bytes = Option.none) :
    classify bytes true = Classification.unreadable := by
  unfold classify
  rw [hb, bytes_to_text_invalid_strict bytes h]
  rfl

theorem classify_lossy (bytes : List Nat)
    (hb : looks_binary bytes = false) (h : utf8Chars bytes = Option.none) :
    classify bytes false = Classification.text (utf8Lossy bytes) (some lossyNote) := by
  unfold classify
  rw [hb, bytes_to_text_invalid_lossy bytes h]
  rfl

theorem take_any_zero (l : List Nat) (n : Nat) :
    (l.take n).any (fun b => b == 0) = true ↔
      ∃ i, i < min l.length n ∧ l.getD i 1 = 0 := by
  induction l generalizing n with
  | nil => simp
  | cons b rest ih =>
    cases n with
    | zero => simp
    | succ m =>
      simp only [List.take_succ_cons, List.any_cons, Bool.or_eq_true, beq_iff_eq]
      constructor
      · intro h
        cases h with
        | inl h0 => exact ⟨0, by simp, by simpa using h0⟩
        | inr h1 =>
          obtain ⟨i, hi, hz⟩ := (ih m).mp h1
          exact ⟨i + 1, by simp at hi ⊢; omega, by simpa using hz⟩
      · intro h
        obtain ⟨i, hi, hz⟩ := h
        cases i with
        | zero => exact Or.inl (by simpa using hz)
        | succ j =>
          refine Or.inr ((ih m).mpr ⟨j, ?_, by simpa using hz⟩)
          simp at hi ⊢
          omega

/-! ## Claim theorems -/

/-- C3 (amended): for every file and every byte cap whose u64 reader
bound max_bytes + 1 does not wrap (max_bytes + 1 < 2 ^ 64), load keeps a
sequence of at most max_bytes bytes unchanged with truncated false, keeps
exactly the first max_bytes bytes with truncated true when more are
available, and inspects at most the first max_bytes + 1 bytes of the
data. -/
theorem c3_load_truncation (data : List Nat) (max_bytes : Nat)
    (hw : max_bytes + 1 < 2 ^ 64) :
    (data.length ≤ max_bytes →
       read_file_limited data max_bytes = { bytes := data, truncated := false }) ∧
    (max_bytes < data.length →
       read_file_limited data max_bytes =
         { bytes := data.take max_bytes, truncated := true }) ∧
    read_file_limited data max_bytes =
      read_file_limited (data.take (max_bytes + 1)) max_bytes := by
  have hmod : (max_bytes + 1) % 2 ^ 64 = max_bytes + 1 := Nat.mod_eq_of_lt hw
  refine ⟨?_, ?_, ?_⟩
  · intro h
    unfold read_file_limited
    rw [hmod]
    have ht : data.take (max_bytes + 1) = data := List.take_of_length_le (by omega)
    simp [ht, Nat.not_lt.mpr h]
  · intro h
    unfold read_file_limited
    rw [hmod]
    have hl : (data.take (max_bytes + 1)).length = max_bytes + 1 := by
      rw [List.length_take]
      omega
    have htr : decide ((data.take (max_bytes + 1)).length > max_bytes) = true := by
      simp [hl]
    simp only [htr]
    simp [List.take_take]
  · unfold read_file_limited
    rw [hmod]
    simp [List.take_take]

/-- C3 witness: a concrete short read and a concrete truncated read, with
the no-wrap bound discharged at the concrete cap. -/
theorem c3_load_truncation_witness :
    (3 + 1 < 2 ^ 64 ∧
     read_file_limited [1, 2, 3] 3 = { bytes := [1, 2, 3], truncated := false }) ∧
    read_file_limited [1, 2, 3, 4, 5] 3 = { bytes := [1, 2, 3], truncated := true } := by
  constructor
  · exact ⟨by decide, (c3_load_truncation [1, 2, 3] 3 (by decide)).1 (by decide)⟩
  · exact (c3_load_truncation [1, 2, 3, 4, 5] 3 (by decide)).2.1 (by decide)

/-- C3 counterexample: at max_bytes = 2 ^ 64 - 1, a representable usize
value, the u64 cap max_bytes + 1 wraps to zero: a one-byte file (well
within the cap) is returned empty with truncated = false, not unchanged
as the claim states for every max_bytes. -/
theorem c3_wrap_counterexample :
    ([1] : List Nat).length ≤ 2 ^ 64 - 1 ∧
    read_file_limited [1] (2 ^ 64 - 1) = { bytes := [], truncated := false } ∧
    read_file_limited [1] (2 ^ 64 - 1) ≠ { bytes := [1], truncated := false } := by
  refine ⟨by decide, ?_, ?_⟩
  · have hz : (2 ^ 64 - 1 + 1) % 2 ^ 64 = 0 := by
      have : 2 ^ 64 - 1 + 1 = 2 ^ 64 := by
        have h64 : 0 < 2 ^ 64 := Nat.pos_pow_of_pos 64 (by decide)
        omega
      rw [this, Nat.mod_self]
    unfold read_file_limited
    rw [hz]
    rfl
  · have hz : (2 ^ 64 - 1 + 1) % 2 ^ 64 = 0 := by
      have : 2 ^ 64 - 1 + 1 = 2 ^ 64 := by
        have h64 : 0 < 2 ^ 64 := Nat.pos_pow_of_pos 64 (by decide)
        omega
      rw [this, Nat.mod_self]
    unfold read_file_limited
    rw [hz]
    intro hcontra
    simp at hcontra

/-- C4: the classifier reports binary exactly when a NUL byte occurs in
the first min (length, 8 KiB) bytes, and this check precedes UTF-8
validation, so such a sequence is binary even when it is valid UTF-8. -/
theorem c4_binary_window (bytes : List Nat) (strict_utf8 : Bool) :
    (classify bytes strict_utf8 = Classification.binary ↔
       ∃ i, i < min bytes.length (8 * 1024) ∧ bytes.getD i 1 = 0) ∧
    (validUtf8 bytes = true →
       (∃ i, i < min bytes.length (8 * 1024) ∧ bytes.getD i 1 = 0) →
       classify bytes strict_utf8 = Classification.binary) := by
  have hwin : looks_binary bytes = true ↔
      ∃ i, i < min bytes.length (8 * 1024) ∧ bytes.getD i 1 = 0 := by
    unfold looks_binary
    exact take_any_zero bytes (8 * 1024)
  constructor
  · constructor
    · intro h
      apply hwin.mp
      by_contra hb
      have hb2 : looks_binary bytes = false := by
        cases hlb : looks_binary bytes
        · rfl
        · exact absurd hlb hb
      unfold classify at h
      rw [hb2] at h
      simp only [Bool.false_eq_true, if_false] at h
      cases hbt : bytes_to_text bytes strict_utf8 with
      | mk t note =>
        rw [hbt] at h
        cases t <;> simp at h
    · intro h
      unfold classify
      rw [hwin.mpr h]
      rfl
  · intro _ h
    unfold classify
    rw [hwin.mpr h]
    rfl

/-- C4 witness: a single NUL byte is valid UTF-8 yet classified binary. -/
theorem c4_binary_window_witness :
    validUtf8 [0] = true ∧ classify [0] true = Classification.binary :=
  ⟨by decide, (c4_binary_window [0] true).2 (by decide) ⟨0, by decide, by decide⟩⟩

/-- C5: a non-binary sequence that is not valid UTF-8 is skipped as
UnreadableUtf8 with the placeholder segment and a skipped_utf8 increment
under strict mode, and lossy-decoded to a noted text segment counting
toward printed otherwise. -/
theorem c5_invalid_utf8_handling (bytes : List Nat) (max_bytes : Nat)
    (rel : FsPath) (lang : Str) (truncated : Bool)
    (hb : looks_binary bytes = false) (hu : validUtf8 bytes = false) :
    (bytes_to_text bytes true = (Option.none, Option.none) ∧
     renderSegment max_bytes true rel lang (ReadOutcome.ok bytes truncated) =
       (segUtf8 rel, SegKind.utf8K) ∧
     ∀ c : Counters, bumpCounter c SegKind.utf8K =
       { c with skipped_utf8 := c.skipped_utf8 + 1 }) ∧
    (bytes_to_text bytes false = (some (utf8Lossy bytes), some lossyNote) ∧
     renderSegment max_bytes false rel lang (ReadOutcome.ok bytes truncated) =
       (segText max_bytes rel lang truncated (some lossyNote) (utf8Lossy bytes),
        SegKind.printedK) ∧
     ∀ c : Counters, (bumpCounter c SegKind.printedK).printed = c.printed + 1) := by
  have hn : utf8Chars bytes = Option.none := (validUtf8_false_iff bytes).mp hu
  refine ⟨⟨bytes_to_text_invalid_strict bytes hn, ?_, fun c => rfl⟩,
          ⟨bytes_to_text_invalid_lossy bytes hn, ?_, fun c => rfl⟩⟩
  · show (match classify bytes true with
      | Classification.binary => (segBinary rel, SegKind.binaryK)
      | Classification.unreadable => (segUtf8 rel, SegKind.utf8K)
      | Classification.text t note =>
        (segText max_bytes rel lang truncated note t, SegKind.printedK)) =
      (segUtf8 rel, SegKind.utf8K)
    rw [classify_unreadable bytes hb hn]
  · show (match classify bytes false with
      | Classification.binary => (segBinary rel, SegKind.binaryK)
      | Classification.unreadable => (segUtf8 rel, SegKind.utf8K)
      | Classification.text t note =>
        (segText max_bytes rel lang truncated note t, SegKind.printedK)) =
      (segText max_bytes rel lang truncated (some lossyNote) (utf8Lossy bytes),
       SegKind.printedK)
    rw [classify_lossy bytes hb hn]

/-- C5 witness: the byte 255 alone is neither binary-looking nor valid
UTF-8; both strict and lossy behavior are exercised at it. -/
theorem c5_invalid_utf8_handling_witness :
    bytes_to_text [255] true = (Option.none, Option.none) ∧
    bytes_to_text [255] false = (some (utf8Lossy [255]), some lossyNote) :=
  ⟨((c5_invalid_utf8_handling [255] 0 [] [] false (by decide) (by decide)).1).1,
   ((c5_invalid_utf8_handling [255] 0 [] [] false (by decide) (by decide)).2).1⟩

/-- C7: when the decoded text does not end in a newline, exactly one
newline is appended between the content and the closing fence; content
already ending in a newline is emitted unchanged before the fence. -/
theorem c7_trailing_newline (lang text : Str) :
    (endsNewline text = false →
       fencedBlock lang text =
         (str "```" ++ lang ++ str "\n") ++ (text ++ str "\n") ++ str "```\n\n" ∧
       endsNewline (text ++ str "\n") = true ∧
       endsNewline ((text ++ str "\n").dropLast) = false) ∧
    (endsNewline text = true →
       fencedBlock lang text =
         (str "```" ++ lang ++ str "\n") ++ text ++ str "```\n\n") := by
  constructor
  · intro h
    refine ⟨?_, ?_, ?_⟩
    · unfold fencedBlock
      rw [h]
      simp [str]
    · unfold endsNewline
      have h2 : (text ++ str "\n").getLast? = some '\n' := by
        simp [str, List.getLast?_concat]
      simp [h2]
    · have hd : (text ++ str "\n").dropLast = text := by
        simp [str, List.dropLast_concat]
      rw [hd]
      exact h
  · intro h
    unfold fencedBlock
    rw [h]
    simp [str]

/-- C7 witness: concrete text without and with a trailing newline. -/
theorem c7_trailing_newline_witness :
    fencedBlock (str "text") (str "abc") =
      (str "```" ++ str "text" ++ str "\n") ++ (str "abc" ++ str "\n") ++ str "```\n\n" ∧
    fencedBlock (str "text") (str "x\n") =
      (str "```" ++ str "text" ++ str "\n") ++ str "x\n" ++ str "```\n\n" :=
  ⟨((c7_trailing_newline (str "text") (str "abc")).1 (by decide)).1,
   (c7_trailing_newline (str "text") (str "x\n")).2 (by decide)⟩

/-- C10: a zero-byte file is not binary, decodes as empty text with no
note, renders as a text segment with an empty fenced block, and bumps
only the printed counter. -/
theorem c10_empty_file (max_bytes : Nat) (strict_utf8 : Bool) (rel : FsPath) (lang : Str) :
    looks_binary [] = false ∧
    bytes_to_text [] strict_utf8 = (some [], Option.none) ∧
    renderSegment max_bytes strict_utf8 rel lang (ReadOutcome.ok [] false) =
      (segHeader rel ++ fencedBlock lang [], SegKind.printedK) ∧
    (∀ c : Counters, bumpCounter c SegKind.printedK =
      { c with printed := c.printed + 1 }) ∧
    (∀ c : Counters, (bumpCounter c SegKind.printedK).skipped_binary = c.skipped_binary ∧
      (bumpCounter c SegKind.printedK).skipped_utf8 = c.skipped_utf8) := by
  have h1 : utf8Chars ([] : List Nat) = some [] := by rfl
  have h2 : bytes_to_text [] strict_utf8 = (some [], Option.none) := by
    unfold bytes_to_text
    rw [h1]
  have h3 : classify [] strict_utf8 = Classification.text [] Option.none := by
    unfold classify
    rw [h2]
    rfl
  refine ⟨rfl, h2, ?_, fun c => rfl, fun c => ⟨rfl, rfl⟩⟩
  show (match classify [] strict_utf8 with
    | Classification.binary => (segBinary rel, SegKind.binaryK)
    | Classification.unreadable => (segUtf8 rel, SegKind.utf8K)
    | Classification.text t note =>
      (segText max_bytes rel lang false note t, SegKind.printedK)) =
    (segHeader rel ++ fencedBlock lang [], SegKind.printedK)
  rw [h3]
  simp [segText]

/-! ## Policy lemmas and theorems -/

theorem oAdd_ignores_of_bang (line : Str) (r : Rule)
    (hb : line.head? = some '!') (h : oAdd line = Except.ok r) : r.ignores = true := by
  cases line with
  | nil => simp at hb
  | cons a rest =>
    simp at hb
    subst hb
    rw [show oAdd ('!' :: rest) =
        (parseGlob rest).map (fun g => { ignores := true, pat := g }) from rfl] at h
    cases hp : parseGlob rest with
    | ok g =>
      rw [hp] at h
      simp [Except.map] at h
      rw [← h]
    | error e =>
      rw [hp] at h
      simp [Except.map] at h

theorem add_exclude_ignores (p : Str) (r : Rule) (h : add_exclude p = Except.ok r) :
    r.ignores = true := by
  simp only [add_exclude] at h
  by_cases hh : (trim p).head? = some '!'
  · rw [if_pos hh] at h
    cases ho : oAdd (trim p) with
    | ok r2 =>
      rw [ho] at h
      simp at h
      subst h
      exact oAdd_ignores_of_bang (trim p) r2 hh ho
    | error e => rw [ho] at h; simp at h
  · rw [if_neg hh] at h
    cases ho : oAdd ('!' :: trim p) with
    | ok r2 =>
      rw [ho] at h
      simp at h
      subst h
      exact oAdd_ignores_of_bang ('!' :: trim p) r2 (by simp) ho
    | error e => rw [ho] at h; simp at h

theorem addAll_ignores (pats : List Str) :
    ∀ (acc res : List Rule), addAllExcludes pats acc = Except.ok res →
      (∀ r ∈ acc, r.ignores = true) → ∀ r ∈ res, r.ignores = true := by
  induction pats with
  | nil =>
    intro acc res h hacc
    unfold addAllExcludes at h
    simp at h
    subst h
    exact hacc
  | cons p rest ih =>
    intro acc res h hacc
    unfold addAllExcludes at h
    cases hp : add_exclude p with
    | ok r2 =>
      rw [hp] at h
      refine ih (acc ++ [r2]) res h ?_
      intro r hr
      rcases List.mem_append.mp hr with h1 | h1
      · exact hacc r h1
      · simp at h1
        subst h1
        exact add_exclude_ignores p r hp
    | error e => rw [hp] at h; simp at h

theorem build_overrides_ignores (lf : Bool) (ex inc : List Str) (rules : List Rule)
    (h : build_overrides lf ex inc = Except.ok rules) : ∀ r ∈ rules, r.ignores = true := by
  unfold build_overrides at h
  split at h
  · simp at h
  · rename_i acc1 h1
    split at h
    · simp at h
    · rename_i acc2 h2
      have p1 : ∀ r ∈ acc1, r.ignores = true :=
        addAll_ignores builtinExcludes [] acc1 h1 (by intro r hr; simp at hr)
      have p2 : ∀ r ∈ acc2, r.ignores = true := by
        cases lf with
        | true =>
          simp at h2
          subst h2
          exact p1
        | false =>
          simp at h2
          exact addAll_ignores lockfileExcludes acc1 acc2 h2 p1
      split at h
      · simp at h
      · rename_i acc3 h3
        have p3 : ∀ r ∈ acc3, r.ignores = true := addAll_ignores ex acc2 acc3 h3 p2
        split at h
        · simp at h
        · rename_i acc4 h4
          simp at h
          subst h
          exact addAll_ignores (inc.map includeLine) acc3 acc4 h4 p3

theorem lastMatch_none (rules : List Rule) (path : FsPath)
    (h : ∀ r ∈ rules, compsMatch r.pat path = false) :
    lastMatch rules path = Option.none := by
  induction rules with
  | nil => rfl
  | cons r rest ih =>
    unfold lastMatch
    rw [ih (fun r2 hr => h r2 (List.mem_cons_of_mem r hr))]
    simp [h r (List.mem_cons_self r rest)]

/-- C6: a path matching none of the compiled override rules is included
by default, for every policy compiled by build_overrides. -/
theorem c6_default_include (lf : Bool) (ex inc : List Str) (rules : List Rule) (path : FsPath)
    (hok : build_overrides lf ex inc = Except.ok rules)
    (hnm : ∀ r ∈ rules, compsMatch r.pat path = false) :
    is_included rules path = true := by
  have hign := build_overrides_ignores lf ex inc rules hok
  unfold is_included matched
  rw [lastMatch_none rules path hnm]
  have hany : rules.any (fun r => !r.ignores) = false := by
    rw [List.any_eq_false]
    intro r hr
    simp [hign r hr]
  cases he : rules.isEmpty with
  | true => simp
  | false =>
    simp only [Bool.false_eq_true, if_false]
    rw [hany]
    rfl

/-- C6 witness: the default policy includes a path no rule matches. -/
theorem c6_default_include_witness :
    is_included ((build_overrides false [] []).toOption.getD []) [str "foo.xyz"] = true :=
  c6_default_include false [] [] _ [str "foo.xyz"] (by rfl) (by decide)

/-- C1: evaluating the compiled policy at the spec scenario C input. With
no user patterns the path secrets/.env is included; adding
exclude secrets/** and then include secrets/.env leaves it excluded, and
every compiled rule (the include-derived one too) carries exclude
polarity, because build_overrides routes includes through the same
bang-prefixing normalizer as excludes. -/
theorem c1_force_include_defeated :
    (build_overrides false [str "secrets/**"] [str "secrets/.env"]).map
        (fun rules => is_included rules [str "secrets", str ".env"]) = Except.ok false ∧
    (build_overrides false [] []).map
        (fun rules => is_included rules [str "secrets", str ".env"]) = Except.ok true ∧
    (build_overrides false [str "secrets/**"] [str "secrets/.env"]).map
        (fun rules => rules.all (fun r => r.ignores)) = Except.ok true := by
  refine ⟨by rfl, by rfl, by rfl⟩

/-! ## Malformed patterns (C8) and root normalization (C9) -/

theorem addAll_ok_of_all (pats : List Str) :
    ∀ acc : List Rule, (∀ p ∈ pats, exIsOk (add_exclude p) = true) →
      ∃ res, addAllExcludes pats acc = Except.ok res := by
  induction pats with
  | nil => intro acc _; exact ⟨acc, rfl⟩
  | cons p rest ih =>
    intro acc h
    have hp := h p (by simp)
    unfold addAllExcludes
    cases hq : add_exclude p with
    | ok r =>
      exact ih (acc ++ [r]) (fun q hq2 => h q (by simp [hq2]))
    | error e =>
      rw [hq] at hp
      simp [exIsOk] at hp

theorem addAll_error_of_mem (pats : List Str) (p e : Str)
    (hp : p ∈ pats) (he : add_exclude p = Except.error e) :
    ∀ acc : List Rule, ∃ m, addAllExcludes pats acc = Except.error m := by
  induction pats with
  | nil => simp at hp
  | cons q rest ih =>
    intro acc
    unfold addAllExcludes
    cases hq : add_exclude q with
    | error m => exact ⟨m, rfl⟩
    | ok r =>
      rcases List.mem_cons.mp hp with h1 | h1
      · subst h1
        rw [hq] at he
        simp at he
      · exact ih h1 (acc ++ [r])

theorem addAll_error_src (pats : List Str) :
    ∀ (acc : List Rule) (m : Str), addAllExcludes pats acc = Except.error m →
      ∃ p ∈ pats, add_exclude p = Except.error m := by
  induction pats with
  | nil =>
    intro acc m h
    unfold addAllExcludes at h
    simp at h
  | cons q rest ih =>
    intro acc m h
    unfold addAllExcludes at h
    cases hq : add_exclude q with
    | ok r =>
      rw [hq] at h
      obtain ⟨p, hp, he⟩ := ih (acc ++ [r]) m h
      exact ⟨p, by simp [hp], he⟩
    | error e =>
      rw [hq] at h
      simp at h
      subst h
      exact ⟨q, by simp, hq⟩

theorem add_exclude_error_shape (p m : Str) (h : add_exclude p = Except.error m) :
    ∃ e, m = str "bad override " ++ [sq] ++
        (if (trim p).head? = some '!' then trim p else '!' :: trim p) ++ [sq] ++
        str ": " ++ e := by
  simp only [add_exclude] at h
  cases ho : oAdd (if (trim p).head? = some '!' then trim p else '!' :: trim p) with
  | ok r => rw [ho] at h; simp at h
  | error e =>
    rw [ho] at h
    simp at h
    refine ⟨e, ?_⟩
    rw [← h]
    simp

theorem builtins_all_ok : ∀ p ∈ builtinExcludes, exIsOk (add_exclude p) = true := by
  decide

theorem lockfiles_all_ok : ∀ p ∈ lockfileExcludes, exIsOk (add_exclude p) = true := by
  decide

theorem build_overrides_error_src (lf : Bool) (ex inc : List Str) (m : Str)
    (h : build_overrides lf ex inc = Except.error m) :
    ∃ q, (q ∈ builtinExcludes ∨ q ∈ lockfileExcludes ∨ q ∈ ex ∨ q ∈ inc.map includeLine) ∧
      add_exclude q = Except.error m := by
  unfold build_overrides at h
  split at h
  · rename_i e h1
    simp at h
    subst h
    obtain ⟨q, hq, he⟩ := addAll_error_src builtinExcludes [] _ h1
    exact ⟨q, Or.inl hq, he⟩
  · rename_i acc1 h1
    split at h
    · rename_i e h2
      simp at h
      subst h
      cases lf with
      | true => simp at h2
      | false =>
        simp at h2
        obtain ⟨q, hq, he⟩ := addAll_error_src lockfileExcludes acc1 _ h2
        exact ⟨q, Or.inr (Or.inl hq), he⟩
    · rename_i acc2 h2
      split at h
      · rename_i e h3
        simp at h
        subst h
        obtain ⟨q, hq, he⟩ := addAll_error_src ex acc2 _ h3
        exact ⟨q, Or.inr (Or.inr (Or.inl hq)), he⟩
      · rename_i acc3 h3
        split at h
        · rename_i e h4
          simp at h
          subst h
          obtain ⟨q, hq, he⟩ := addAll_error_src (inc.map includeLine) acc3 _ h4
          exact ⟨q, Or.inr (Or.inr (Or.inr hq)), he⟩
        · simp at h

theorem addAll_ok_each (pats : List Str) :
    ∀ (acc res : List Rule), addAllExcludes pats acc = Except.ok res →
      ∀ p ∈ pats, exIsOk (add_exclude p) = true := by
  induction pats with
  | nil => intro acc res _ p hp; simp at hp
  | cons q rest ih =>
    intro acc res h p hp
    unfold addAllExcludes at h
    cases hq : add_exclude q with
    | error e => rw [hq] at h; simp at h
    | ok r =>
      rw [hq] at h
      rcases List.mem_cons.mp hp with h1 | h1
      · subst h1
        simp [exIsOk, hq]
      · exact ih (acc ++ [r]) res h p h1

theorem build_overrides_error_of_bad (lf : Bool) (ex inc : List Str)
    (h : (∃ p ∈ ex, ∃ e, add_exclude p = Except.error e) ∨
         (∃ p ∈ inc, ∃ e, add_exclude (includeLine p) = Except.error e)) :
    ∃ m, build_overrides lf ex inc = Except.error m := by
  cases hb : build_overrides lf ex inc with
  | error m => exact ⟨m, rfl⟩
  | ok rules =>
    exfalso
    unfold build_overrides at hb
    split at hb
    · simp at hb
    · rename_i acc1 _
      split at hb
      · simp at hb
      · rename_i acc2 _
        split at hb
        · simp at hb
        · rename_i acc3 h3
          split at hb
          · simp at hb
          · rename_i acc4 h4
            cases h with
            | inl hbad =>
              obtain ⟨p, hp, e, he⟩ := hbad
              have hok := addAll_ok_each ex acc2 acc3 h3 p hp
              rw [he] at hok
              simp [exIsOk] at hok
            | inr hbad =>
              obtain ⟨p, hp, e, he⟩ := hbad
              have hok := addAll_ok_each (inc.map includeLine) acc3 acc4 h4 (includeLine p)
                (List.mem_map_of_mem includeLine hp)
              rw [he] at hok
              simp [exIsOk] at hok

theorem normalize_root_ok (canon : FsPath → Except Str FsPath) (root : FsPath) :
    ∃ p, normalize_root canon root = Except.ok p := by
  unfold normalize_root
  cases canon (if root = [] then [str "."] else root) with
  | ok p => exact ⟨p, rfl⟩
  | error e => exact ⟨_, rfl⟩

theorem run_error_of_build (canon : FsPath → Except Str FsPath)
    (walk : List Rule → List FsPath) (readF : FsPath → ReadOutcome) (args : Args) (m : Str)
    (h : build_overrides args.include_lockfiles args.excludes args.includes = Except.error m) :
    run canon walk readF args = Except.error m := by
  obtain ⟨root, hroot⟩ := normalize_root_ok canon args.root
  unfold run
  simp only [bind, Except.bind]
  rw [hroot, h]

/-- C8: a malformed user glob pattern makes policy compilation fail with
an error naming the (normalized) bad pattern and the underlying parser
complaint, and the run aborts with that error before producing any
document output. -/
theorem c8_malformed_pattern_fatal (lf : Bool) (excludes includes : List Str)
    (h : (∃ p ∈ excludes, ∃ e, add_exclude p = Except.error e) ∨
         (∃ p ∈ includes, ∃ e, add_exclude (includeLine p) = Except.error e)) :
    ∃ m, build_overrides lf excludes includes = Except.error m ∧
      (∃ q, (q ∈ builtinExcludes ∨ q ∈ lockfileExcludes ∨ q ∈ excludes ∨
             q ∈ includes.map includeLine) ∧
        ∃ e, m = str "bad override " ++ [sq] ++
          (if (trim q).head? = some '!' then trim q else '!' :: trim q) ++ [sq] ++
          str ": " ++ e) ∧
      ∀ (canon : FsPath → Except Str FsPath) (walk : List Rule → List FsPath)
        (readF : FsPath → ReadOutcome) (root : FsPath) (mb : Nat) (ngi nh su : Bool),
        run canon walk readF ⟨root, mb, ngi, nh, lf, excludes, includes, su⟩ =
          Except.error m := by
  obtain ⟨m, hm⟩ := build_overrides_error_of_bad lf excludes includes h
  refine ⟨m, hm, ?_, ?_⟩
  · obtain ⟨q, hq, he⟩ := build_overrides_error_src lf excludes includes m hm
    exact ⟨q, hq, add_exclude_error_shape q m he⟩
  · intro canon walk readF root mb ngi nh su
    exact run_error_of_build canon walk readF ⟨root, mb, ngi, nh, lf, excludes, includes, su⟩ m hm

/-- C8 witness: the unclosed class pattern aborts a concrete run. -/
theorem c8_malformed_pattern_fatal_witness :
    ∃ m, build_overrides false [str "["] [] = Except.error m ∧
      (∃ q, (q ∈ builtinExcludes ∨ q ∈ lockfileExcludes ∨ q ∈ [str "["] ∨
             q ∈ ([] : List Str).map includeLine) ∧
        ∃ e, m = str "bad override " ++ [sq] ++
          (if (trim q).head? = some '!' then trim q else '!' :: trim q) ++ [sq] ++
          str ": " ++ e) ∧
      ∀ (canon : FsPath → Except Str FsPath) (walk : List Rule → List FsPath)
        (readF : FsPath → ReadOutcome) (root : FsPath) (mb : Nat) (ngi nh su : Bool),
        run canon walk readF ⟨root, mb, ngi, nh, false, [str "["], [], su⟩ =
          Except.error m :=
  c8_malformed_pattern_fatal false [str "["] []
    (Or.inl ⟨str "[", by simp, str "bad override " ++ [sq] ++ str "![" ++ [sq] ++
      str ": unclosed character class", by rfl⟩)

/-- C9: root normalization is total: it resolves the (defaulted) root to
the canonical form when canonicalization succeeds and falls back to the
literal input when it fails, and in either case returns successfully, so
no fatal exit can originate from it. -/
theorem c9_normalize_root (canon : FsPath → Except Str FsPath) (root : FsPath) :
    (∃ p, normalize_root canon root = Except.ok p) ∧
    (∀ q, canon (if root = [] then [str "."] else root) = Except.ok q →
       normalize_root canon root = Except.ok q) ∧
    (∀ e, canon (if root = [] then [str "."] else root) = Except.error e →
       normalize_root canon root = Except.ok (if root = [] then [str "."] else root)) := by
  refine ⟨normalize_root_ok canon root, ?_, ?_⟩
  · intro q hq
    unfold normalize_root
    rw [hq]
  · intro e he
    unfold normalize_root
    rw [he]

/-- C9 witness: a succeeding and a failing canonicalization oracle at a
concrete root. -/
theorem c9_normalize_root_witness :
    normalize_root (fun _ => Except.ok [str "abs", str "rel"]) [str "rel"] =
      Except.ok [str "abs", str "rel"] ∧
    normalize_root (fun _ => Except.error (str "denied")) [str "rel"] =
      Except.ok [str "rel"] := by
  constructor
  · exact (c9_normalize_root (fun _ => Except.ok [str "abs", str "rel"]) [str "rel"]).2.1
      [str "abs", str "rel"] rfl
  · exact (c9_normalize_root (fun _ => Except.error (str "denied")) [str "rel"]).2.2
      (str "denied") rfl

/-! ## Listing and segment alignment, emission order (C2) -/

theorem strCmp_self (a : Str) : strCmp a a = Ordering.eq := by
  induction a with
  | nil => rfl
  | cons c rest ih =>
    unfold strCmp
    simp [lt_irrefl, ih]

theorem pathCmp_cons (x : Str) (a b : FsPath) :
    pathCmp (x :: a) (x :: b) = pathCmp a b := by
  show (match strCmp x x with
        | Ordering.lt => Ordering.lt
        | Ordering.gt => Ordering.gt
        | Ordering.eq => pathCmp a b) = pathCmp a b
  rw [strCmp_self]

theorem pathCmp_append (root a b : FsPath) :
    pathCmp (root ++ a) (root ++ b) = pathCmp a b := by
  induction root with
  | nil => rfl
  | cons x rest ih =>
    simp only [List.cons_append]
    rw [pathCmp_cons, ih]

theorem stripRoot_append (root a : FsPath) : stripRoot root (root ++ a) = some a := by
  induction root with
  | nil => rfl
  | cons x rest ih =>
    simp only [List.cons_append]
    unfold stripRoot
    simp [ih]

theorem rel_path_append (root a : FsPath) : rel_path root (root ++ a) = a := by
  unfold rel_path
  rw [stripRoot_append]
  rfl

theorem mem_insertPath (x y : FsPath) (l : List FsPath) :
    y ∈ insertPath x l ↔ y = x ∨ y ∈ l := by
  induction l with
  | nil => simp [insertPath]
  | cons z zs ih =>
    unfold insertPath
    by_cases h : pathLe x z = true
    · simp [h]
    · simp only [h, Bool.false_eq_true, if_false, List.mem_cons, ih]
      tauto

theorem mem_sortPaths (y : FsPath) (l : List FsPath) : y ∈ sortPaths l ↔ y ∈ l := by
  induction l with
  | nil => simp [sortPaths]
  | cons x xs ih =>
    unfold sortPaths
    rw [mem_insertPath]
    simp [ih]

theorem insertPath_map_of (f : FsPath → FsPath) (x : FsPath) (l : List FsPath)
    (hf : ∀ b ∈ l, pathCmp (f x) (f b) = pathCmp x b) :
    insertPath (f x) (l.map f) = (insertPath x l).map f := by
  induction l with
  | nil => rfl
  | cons y ys ih =>
    simp only [List.map_cons]
    unfold insertPath
    have hxy : pathLe (f x) (f y) = pathLe x y := by
      unfold pathLe
      rw [hf y (by simp)]
    rw [hxy]
    by_cases h : pathLe x y = true
    · simp [h]
    · simp only [h, Bool.false_eq_true, if_false, List.map_cons]
      rw [ih (fun b hb => hf b (by simp [hb]))]

theorem sortPaths_map_of (f : FsPath → FsPath) (l : List FsPath)
    (hf : ∀ a ∈ l, ∀ b ∈ l, pathCmp (f a) (f b) = pathCmp a b) :
    sortPaths (l.map f) = (sortPaths l).map f := by
  induction l with
  | nil => rfl
  | cons x xs ih =>
    simp only [List.map_cons]
    unfold sortPaths
    rw [ih (fun a ha b hb => hf a (by simp [ha]) b (by simp [hb]))]
    exact insertPath_map_of f x (sortPaths xs) (fun b hb =>
      hf x (by simp) b (by simp [(mem_sortPaths b xs).mp hb]))

/-- C2 (amended): the listed paths and the paths of the emitted segments
are the same sequence (same set, same order, one segment per listed
path), and that order is the stable sort of the root-relative paths under
component-wise path comparison (the Rust Path ordering used by the sort
of the file list) whenever all walked files lie under the root. -/
theorem c2_listing_segments_aligned (root : FsPath) (files : List FsPath)
    (readF : FsPath → ReadOutcome) (max_bytes : Nat) (strict_utf8 : Bool)
    (h : ∀ p ∈ files, ∃ a, p = root ++ a) :
    listingPaths root files = segmentPaths root files readF max_bytes strict_utf8 ∧
    listingPaths root files = sortPaths (files.map (rel_path root)) := by
  constructor
  · unfold listingPaths segmentPaths segmentsOf
    rw [List.map_map]
    rfl
  · unfold listingPaths
    refine (sortPaths_map_of (rel_path root) files ?_).symm
    intro a ha b hb
    obtain ⟨a2, ha2⟩ := h a ha
    obtain ⟨b2, hb2⟩ := h b hb
    subst ha2
    subst hb2
    rw [rel_path_append, rel_path_append, pathCmp_append]

/-- C2 witness: alignment and order at a concrete two-file run. -/
theorem c2_listing_segments_aligned_witness :
    listingPaths [str "r"] [[str "r", str "b"], [str "r", str "a"]] =
      segmentPaths [str "r"] [[str "r", str "b"], [str "r", str "a"]]
        (fun _ => ReadOutcome.ok [] false) 5 false ∧
    listingPaths [str "r"] [[str "r", str "b"], [str "r", str "a"]] =
      sortPaths ([[str "r", str "b"], [str "r", str "a"]].map (rel_path [str "r"])) :=
  c2_listing_segments_aligned [str "r"] [[str "r", str "b"], [str "r", str "a"]]
    (fun _ => ReadOutcome.ok [] false) 5 false
    (by
      intro p hp
      simp only [List.mem_cons, List.not_mem_nil, or_false] at hp
      rcases hp with h | h
      · exact ⟨[str "b"], by rw [h]; rfl⟩
      · exact ⟨[str "a"], by rw [h]; rfl⟩)

/-- C2 counterexample: at a concrete run the common emission order is not
the lexicographic sort of the root-relative path strings: the walked
files r/a-b and r/a/b are emitted as a/b then a-b (component-wise path
order), while the string sort of the relative path strings puts a-b
first, because the dash orders before the slash. -/
theorem c2_string_sort_counterexample :
    (listingPaths [str "r"] [[str "r", str "a-b"], [str "r", str "a", str "b"]]).map
        renderPath ≠
      specStringSortedRelPaths [str "r"] [[str "r", str "a-b"], [str "r", str "a", str "b"]] := by
  decide

end D2P
